import Mathlib

/-!
Verification of the HTTP-backed `DataStore` of `support/datastore/http.go`.

The Go code is embedded shallowly:

* Go `error` values become the inductive `GoError`; `fmt.Errorf` with `%w`
  becomes `GoError.wrapped` (carrying the formatted message and the wrapped
  error), `errors.New` / `fmt.Errorf` without `%w` become `GoError.errorsNew`,
  and the sentinel `os.ErrNotExist` becomes `GoError.errNotExist`.
  `errors.Is` becomes `errorsIs`, which walks the wrap chain.
* A function returning `(T, error)` becomes `Except GoError T`; a function
  returning only `error` becomes `Option GoError` (`none` = `nil`).
* The network is abstracted as a `Transport`: the behaviour of
  `http.Client.Do`, mapping a request to either a response or a transport
  error message.  Every method that performs I/O takes the transport as an
  explicit argument (in Go it lives in the receiver as `h.client`); the
  write/list methods receive it too but, like the Go code, never use it.
* Go maps (`datastoreConfig.Params`, `http.Header`, the metadata result)
  become association lists with the usual distinct-key invariant; map
  assignment is `mapSet` / `headerSet` (update in place, append when absent).
  Iteration order of a Go map is unspecified, so list order is an artifact
  and order-sensitive statements are phrased up to permutation or lookup.
* Strings are Lean `String`s; the `strings` helpers used by the source are
  re-implemented on `String.data` so that proofs can compute
  (`goHasPre` = `strings.HasPrefix`, `goHasSuffix` = `strings.HasSuffix`,
  `goTrimPre` = `strings.TrimPrefix`, `goToLower` = `strings.ToLower`
  restricted to its ASCII action, which is all the source relies on).
-/

namespace Datastore

deriving instance DecidableEq for Except

/-- Go `error` values as the source manipulates them: the `os.ErrNotExist`
sentinel, a fresh error with a message (`errors.New` or `fmt.Errorf` without
`%w`), or a wrapping error (`fmt.Errorf` with `%w`) carrying the full
formatted message and the wrapped error.  Structural equality stands in for
Go's pointer identity of sentinels; the source only ever compares against
`os.ErrNotExist`, where the two coincide. -/
inductive GoError where
  | errNotExist : GoError
  | errorsNew (msg : String) : GoError
  | wrapped (msg : String) (inner : GoError) : GoError
deriving DecidableEq

/-- Rendered message of an error (`err.Error()` in Go); `os.ErrNotExist`
renders as `"file does not exist"`. -/
def GoError.message : GoError → String
  | .errNotExist => "file does not exist"
  | .errorsNew msg => msg
  | .wrapped msg _ => msg

/-- Go `errors.Is`: the error equals the target, or some error in its
unwrap chain does. -/
def errorsIs : GoError → GoError → Bool
  | .wrapped msg inner, target =>
    decide (GoError.wrapped msg inner = target) || errorsIs inner target
  | e, target => decide (e = target)

/-- An outgoing HTTP request as handed to `http.Client.Do`: method, the
URL string it was created from, and its header map (`http.Header`, a map
from name to list of values).  Failures of `http.NewRequestWithContext`
itself (URL re-parsing) are not modelled; the URL built by `buildURL` is
carried verbatim. -/
structure HTTPRequest where
  method : String
  url : String
  header : List (String × List String)
deriving DecidableEq

/-- An HTTP response as seen by the source: status code, header map, body. -/
structure HTTPResponse where
  statusCode : Nat
  header : List (String × List String)
  body : String
deriving DecidableEq

/-- The behaviour of `http.Client.Do`: a response, or a transport error
(carried as its message, the `err` the source wraps with `%w`). -/
abbrev Transport := HTTPRequest → Except String HTTPResponse

/-- Go map assignment `m[k] = v` on an association list: replace the value
at `k` if present, append `(k, v)` otherwise. -/
def mapSet {β : Type} (m : List (String × β)) (k : String) (v : β) : List (String × β) :=
  match m with
  | [] => [(k, v)]
  | (k₀, v₀) :: rest => if k₀ = k then (k, v) :: rest else (k₀, v₀) :: mapSet rest k v

/-- Go `textproto.validHeaderFieldByte`: the RFC 7230 token bytes — ASCII
letters and digits and `! # $ % & ' * + - . ^ _ \x60 | ~` (written here by
code point).  Valid bytes are ASCII, so the char-level model agrees with
Go's byte-level one. -/
def validHeaderFieldByte (c : Char) : Bool :=
  c.toNat == 33 || (35 ≤ c.toNat && c.toNat ≤ 39) || c.toNat == 42 || c.toNat == 43 ||
    c.toNat == 45 || c.toNat == 46 || (48 ≤ c.toNat && c.toNat ≤ 57) ||
    (65 ≤ c.toNat && c.toNat ≤ 90) || (94 ≤ c.toNat && c.toNat ≤ 96) ||
    (97 ≤ c.toNat && c.toNat ≤ 122) || c.toNat == 124 || c.toNat == 126

/-- Loop of Go `textproto.canonicalMIMEHeaderKey`: upper-case a letter at
the start and after each `-`, lower-case every other letter (`Char.toUpper`
and `Char.toLower` act exactly on the ASCII letters, as the Go byte-level
code does); `upper` records whether the previous byte was a `-` (or the
start of the key). -/
def canonicalChars : Bool → List Char → List Char
  | _, [] => []
  | upper, c :: cs =>
    let c' := if upper then c.toUpper else c.toLower
    c' :: canonicalChars (c' == '-') cs

/-- Go `textproto.CanonicalMIMEHeaderKey`: canonicalise the key when every
byte is a valid header-field byte, return it unchanged otherwise (the
`commonHeader` interning table maps canonical keys to themselves and is
semantically the identity). -/
def canonicalMIMEHeaderKey (s : String) : String :=
  if s.data.all validHeaderFieldByte then String.mk (canonicalChars true s.data) else s

/-- Go `http.Header.Set(k, v)`: replace any existing values at the
MIME-canonicalised key by the single value `v`
(`textproto.MIMEHeader.Set` assigns at `CanonicalMIMEHeaderKey(k)`). -/
def headerSet (m : List (String × List String)) (k v : String) :
    List (String × List String) :=
  mapSet m (canonicalMIMEHeaderKey k) [v]

/-- Go `strings.HasPrefix s pre` (byte-level test, modelled on chars). -/
def goHasPre (s pre : String) : Bool := pre.data.isPrefixOf s.data

/-- Go `strings.HasSuffix s suf` (byte-level test, modelled on chars). -/
def goHasSuffix (s suf : String) : Bool := suf.data.isSuffixOf s.data

/-- Go `strings.TrimPrefix s pre`: drop `pre` from the front when it is a
prefix of `s`, return `s` unchanged otherwise. -/
def goTrimPre (s pre : String) : String :=
  if goHasPre s pre then String.mk (s.data.drop pre.data.length) else s

/-- Go `strings.ToLower`, restricted to its action on ASCII (`Char.toLower`
lowers exactly the ASCII uppercase letters); the source applies it to HTTP
header names, which are ASCII. -/
def goToLower (s : String) : String := String.mk (s.data.map Char.toLower)

/-- Scheme-character test of `net/url.getScheme`: ASCII letter. -/
def isSchemeAlpha (c : Char) : Bool :=
  (97 ≤ c.toNat && c.toNat ≤ 122) || (65 ≤ c.toNat && c.toNat ≤ 90)

/-- Scheme-character test of `net/url.getScheme`: digit, `+`, `-` or `.`
(allowed in a scheme except at its first position). -/
def isSchemeDigitExtra (c : Char) : Bool :=
  (48 ≤ c.toNat && c.toNat ≤ 57) || c = '+' || c = '-' || c = '.'

/-- Loop of `net/url.getScheme`: `seen` is the reversed scheme read so far
(`seen = []` iff we are at position 0).  Returns `none` when the string has
no scheme part, `some (scheme, rest)` when a `:` terminates a non-empty
scheme, and an error for a leading `:`. -/
def getSchemeCore (seen : List Char) : List Char → Except String (Option (List Char × List Char))
  | [] => .ok none
  | c :: cs =>
    if isSchemeAlpha c then getSchemeCore (c :: seen) cs
    else if isSchemeDigitExtra c then
      if seen = [] then .ok none else getSchemeCore (c :: seen) cs
    else if c = ':' then
      if seen = [] then .error "missing protocol scheme"
      else .ok (some (seen.reverse, cs))
    else .ok none

/-- Go `net/url.getScheme`: split `rawURL` into scheme and remainder; when no
scheme is present the whole string is returned as the remainder. -/
def getScheme (rawURL : String) : Except String (String × String) :=
  match getSchemeCore [] rawURL.data with
  | .error e => .error e
  | .ok none => .ok ("", rawURL)
  | .ok (some (sch, rest)) => .ok (String.mk sch, String.mk rest)

/-- Go `net/url.stringContainsCTLByte`: any byte below `0x20` or equal to
`0x7f` (on valid UTF-8 the char-level test agrees with the byte-level one). -/
def containsCTLByte (s : String) : Bool :=
  s.data.any fun c => c.toNat < 32 || c.toNat == 127

/-- The part of a parsed `net/url.URL` the source consults. -/
structure ParsedURL where
  scheme : String
  rest : String
deriving DecidableEq

/-- Modelled fragment of Go `net/url.Parse`: rejection of control bytes,
scheme splitting via `getScheme`, and lower-casing of the scheme — the only
outputs `NewHTTPDataStore` consults.  Errors the stdlib can additionally
raise while parsing the authority/escape parts after the scheme are not
modelled; theorems whose truth needs parse success therefore restrict to
URLs free of those constructs (`WellFormedHTTPBase`). -/
def urlParse (rawURL : String) : Except String ParsedURL :=
  if containsCTLByte rawURL then .error "net/url: invalid control character in URL"
  else
    match getScheme rawURL with
    | .error e => .error e
    | .ok (sch, rest) => .ok { scheme := goToLower sch, rest := rest }

/-- Modelled from the spec: `DataStoreConfig` (its defining file is not part
of this slice) — a backend discriminator plus string key/value parameters. -/
structure DataStoreConfig where
  type : String
  params : List (String × String)

/-- The `HTTPDataStore` struct: the `http.Client` is represented by the one
datum the source configures on it (its timeout, in nanoseconds); the
client's behaviour is the `Transport` passed to each operation. -/
structure HTTPDataStore where
  timeout : Nat
  baseURL : String
  headers : List (String × String)
deriving DecidableEq

/-- Header-collection loop of `NewHTTPDataStore`: every parameter whose key
starts with `header_` contributes a header named by the key with that
lead stripped (Go map iteration order is arbitrary; with distinct parameter
keys the resulting map does not depend on it). -/
def collectHeaders : List (String × String) → List (String × String)
  | [] => []
  | (k, v) :: rest =>
    if goHasPre k "header_" then mapSet (collectHeaders rest) (goTrimPre k "header_") v
    else collectHeaders rest

/-- Go `30 * time.Second` in nanoseconds. -/
def defaultTimeout : Nat := 30 * 1000000000

/-- `NewHTTPDataStore`.  `parseDuration` abstracts Go `time.ParseDuration`
(result in nanoseconds); the source only forwards its success value and
propagates its failure. -/
def NewHTTPDataStore (parseDuration : String → Except String Nat)
    (datastoreConfig : DataStoreConfig) : Except GoError HTTPDataStore :=
  match datastoreConfig.params.lookup "base_url" with
  | none => .error (.errorsNew "invalid HTTP config, no base_url")
  | some baseURL =>
    match urlParse baseURL with
    | .error e => .error (.wrapped ("invalid base_url: " ++ e) (.errorsNew e))
    | .ok parsedURL =>
      if parsedURL.scheme ≠ "http" ∧ parsedURL.scheme ≠ "https" then
        .error (.errorsNew "base_url must use http or https scheme")
      else
        let baseURL' := if goHasSuffix baseURL "/" then baseURL else baseURL ++ "/"
        match datastoreConfig.params.lookup "timeout" with
        | some timeoutStr =>
          match parseDuration timeoutStr with
          | .error e => .error (.wrapped ("invalid timeout: " ++ e) (.errorsNew e))
          | .ok timeout =>
            .ok { timeout := timeout, baseURL := baseURL',
                  headers := collectHeaders datastoreConfig.params }
        | none =>
          .ok { timeout := defaultTimeout, baseURL := baseURL',
                headers := collectHeaders datastoreConfig.params }

/-- `buildURL`: plain string concatenation of the stored base and the path. -/
def buildURL (h : HTTPDataStore) (filePath : String) : String :=
  h.baseURL ++ filePath

/-- Iterated `http.Header.Set` over a list of configured headers. -/
def setAll (hdr : List (String × List String)) :
    List (String × String) → List (String × List String)
  | [] => hdr
  | kv :: rest => setAll (headerSet hdr kv.1 kv.2) rest

/-- `addHeaders`: `req.Header.Set(key, value)` for every configured header. -/
def addHeaders (h : HTTPDataStore) (req : HTTPRequest) : HTTPRequest :=
  { req with header := setAll req.header h.headers }

/-- The HEAD request `doHeadRequest` hands to `client.Do`:
`http.NewRequestWithContext(ctx, "HEAD", buildURL(filePath), nil)` followed
by `addHeaders`. -/
def headRequest (h : HTTPDataStore) (filePath : String) : HTTPRequest :=
  addHeaders h { method := "HEAD", url := buildURL h filePath, header := [] }

/-- The GET request `GetFile` hands to `client.Do`, built the same way. -/
def getRequest (h : HTTPDataStore) (filePath : String) : HTTPRequest :=
  addHeaders h { method := "GET", url := buildURL h filePath, header := [] }

/-- `checkHTTPStatus`: 200 → no error, 404 → `os.ErrNotExist`, anything
else → `fmt.Errorf("HTTP error %d for file %s", ...)`. -/
def checkHTTPStatus (resp : HTTPResponse) (filePath : String) : Option GoError :=
  if resp.statusCode = 200 then none
  else if resp.statusCode = 404 then some .errNotExist
  else some (.errorsNew ("HTTP error " ++ toString resp.statusCode ++ " for file " ++ filePath))

/-- `doHeadRequest`: issue the HEAD request, wrap a transport failure, then
classify the status. -/
def doHeadRequest (client : Transport) (h : HTTPDataStore) (filePath : String) :
    Except GoError HTTPResponse :=
  match client (headRequest h filePath) with
  | .error msg =>
    .error (.wrapped ("HEAD request failed for " ++ filePath ++ ": " ++ msg) (.errorsNew msg))
  | .ok resp =>
    match checkHTTPStatus resp filePath with
    | some e => .error e
    | none => .ok resp

/-- Metadata-building loop of `GetFileMetadata`: for every response header
with at least one value, `metadata[strings.ToLower(key)] = values[0]`
(Go map iteration order is arbitrary; the recursion order here is one
admissible order). -/
def lowerFirstValues : List (String × List String) → List (String × String)
  | [] => []
  | (k, vs) :: rest =>
    match vs with
    | [] => lowerFirstValues rest
    | v :: _ => mapSet (lowerFirstValues rest) (goToLower k) v

/-- `GetFileMetadata`: HEAD probe, then lower-cased header names mapped to
their first values. -/
def GetFileMetadata (client : Transport) (h : HTTPDataStore) (filePath : String) :
    Except GoError (List (String × String)) :=
  match doHeadRequest client h filePath with
  | .error e => .error e
  | .ok resp => .ok (lowerFirstValues resp.header)

/-- `GetFileLastModified`.  `parseTime` abstracts Go `http.ParseTime`
(timestamp as a number); the source returns its result verbatim. -/
def GetFileLastModified (client : Transport) (parseTime : String → Except String Nat)
    (h : HTTPDataStore) (filePath : String) : Except GoError Nat :=
  match GetFileMetadata client h filePath with
  | .error e => .error e
  | .ok metadata =>
    match metadata.lookup "last-modified" with
    | some lastModified =>
      match parseTime lastModified with
      | .ok t => .ok t
      | .error e => .error (.errorsNew e)
    | none => .error (.errorsNew "last-modified header not found")

/-- `GetFile`: issue the GET request, wrap a transport failure, classify the
status, and on success hand back the response body. -/
def GetFile (client : Transport) (h : HTTPDataStore) (filePath : String) :
    Except GoError String :=
  match client (getRequest h filePath) with
  | .error msg =>
    .error (.wrapped ("GET request failed for " ++ filePath ++ ": " ++ msg) (.errorsNew msg))
  | .ok resp =>
    match checkHTTPStatus resp filePath with
    | some e => .error e
    | none => .ok resp.body

/-- `PutFile`: unconditionally the read-only error; `h.client` is in scope
(receiver) but never consulted, so the result ignores the transport. -/
def PutFile (client : Transport) (h : HTTPDataStore) (path : String)
    (payload : String) (metaData : List (String × String)) : Option GoError :=
  some (.errorsNew "HTTP datastore is read-only, PutFile not supported")

/-- `PutFileIfNotExists`: unconditionally `(false, error)`. -/
def PutFileIfNotExists (client : Transport) (h : HTTPDataStore) (path : String)
    (payload : String) (metaData : List (String × String)) : Bool × Option GoError :=
  (false, some (.errorsNew "HTTP datastore is read-only, PutFileIfNotExists not supported"))

/-- `Exists`: HEAD probe; `os.ErrNotExist` becomes `(false, nil)`, any other
failure propagates, success becomes `(true, nil)`. -/
def Exists (client : Transport) (h : HTTPDataStore) (filePath : String) :
    Except GoError Bool :=
  match doHeadRequest client h filePath with
  | .error e => if errorsIs e .errNotExist then .ok false else .error e
  | .ok _ => .ok true

/-- Numeric value of a digit string (Go `strconv` accumulation, exact). -/
def digitsVal (l : List Char) : Nat :=
  l.foldl (fun acc c => acc * 10 + (c.toNat - 48)) 0

/-- Go `strconv.ParseInt(s, 10, 64)`, as the predicate/value pair the source
uses: optional sign, at least one ASCII digit, and the int64 range check
(`n ≤ 2^63` negated, `n < 2^63` otherwise); `none` when Go returns a
non-nil error (syntax or range). -/
def parseInt64 (s : String) : Option Int :=
  match s.data with
  | [] => none
  | c :: rest =>
    let signDigits : Bool × List Char :=
      if c = '-' then (true, rest)
      else if c = '+' then (false, rest)
      else (false, c :: rest)
    let digits := signDigits.2
    if digits = [] then none
    else if digits.all (fun d => 48 ≤ d.toNat && d.toNat ≤ 57) then
      let n := digitsVal digits
      if signDigits.1 then (if n ≤ 2 ^ 63 then some (-(n : Int)) else none)
      else (if n < 2 ^ 63 then some ((n : Int)) else none)
    else none

/-- `Size`: metadata lookup of `content-length`, parsed as a base-10 64-bit
integer. -/
def Size (client : Transport) (h : HTTPDataStore) (filePath : String) :
    Except GoError Int :=
  match GetFileMetadata client h filePath with
  | .error e => .error e
  | .ok metadata =>
    match metadata.lookup "content-length" with
    | some contentLength =>
      match parseInt64 contentLength with
      | some size => .ok size
      | none => .error (.errorsNew ("invalid content-length header: " ++ contentLength))
    | none => .error (.errorsNew "content-length header not found")

/-- `ListFilePaths`: unconditionally the unsupported error. -/
def ListFilePaths (client : Transport) (h : HTTPDataStore) (pre : String)
    (limit : Int) : Except GoError (List String) :=
  .error (.errorsNew "HTTP datastore does not support listing files")

/-- `Close`: a no-op returning `nil`. -/
def Close (h : HTTPDataStore) : Option GoError := none

/-- A string ends with exactly one `/`: its last char is `/` and the char
before it (if any) is not. -/
def endsWithExactlyOneSlash (s : String) : Bool :=
  match s.data.reverse with
  | [] => false
  | ['/'] => true
  | '/' :: c :: _ => c != '/'
  | _ :: _ => false

/-- Characters on which the modelled `urlParse` provably agrees with the
full Go parser (lower-case letters, digits, `.`, `-`, `/`): no control
bytes, no escapes, no port/userinfo/query/fragment syntax. -/
def SafeURLChar (c : Char) : Prop :=
  (97 ≤ c.toNat ∧ c.toNat ≤ 122) ∨ (48 ≤ c.toNat ∧ c.toNat ≤ 57) ∨
    c = '.' ∨ c = '-' ∨ c = '/'

instance : DecidablePred SafeURLChar := fun c => by
  unfold SafeURLChar; infer_instance

/-- A conservatively well-formed http(s) base URL: a literal lower-case
`http://` or `https://` followed only by `SafeURLChar`s.  On such strings
Go `url.Parse` succeeds with scheme `http`/`https`. -/
def WellFormedHTTPBase (s : String) : Prop :=
  (s.data.take 7 = "http://".data ∧ ∀ c ∈ s.data.drop 7, SafeURLChar c) ∨
    (s.data.take 8 = "https://".data ∧ ∀ c ∈ s.data.drop 8, SafeURLChar c)

instance : DecidablePred WellFormedHTTPBase := fun s => by
  unfold WellFormedHTTPBase; infer_instance

/-! Helper lemmas about the association-list model of Go maps. -/

theorem lookup_cons_self {β : Type} (k : String) (v : β) (l : List (String × β)) :
    ((k, v) :: l).lookup k = some v := by
  simp [List.lookup]

theorem lookup_cons_ne {β : Type} (k₀ k : String) (v : β) (l : List (String × β))
    (h : k ≠ k₀) : ((k₀, v) :: l).lookup k = l.lookup k := by
  simp only [List.lookup]
  rw [show (k == k₀) = false from beq_eq_false_iff_ne.mpr h]

theorem lookup_mapSet_self {β : Type} (m : List (String × β)) (k : String) (v : β) :
    (mapSet m k v).lookup k = some v := by
  induction m with
  | nil => simp [mapSet, List.lookup]
  | cons kv rest ih =>
    obtain ⟨k₀, v₀⟩ := kv
    by_cases h : k₀ = k
    · subst h; simp [mapSet, lookup_cons_self]
    · rw [mapSet, if_neg h, lookup_cons_ne _ _ _ _ (Ne.symm h), ih]

theorem lookup_mapSet_ne {β : Type} (m : List (String × β)) (k : String) (v : β)
    (k' : String) (h : k' ≠ k) : (mapSet m k v).lookup k' = m.lookup k' := by
  induction m with
  | nil =>
    simp only [mapSet]
    rw [lookup_cons_ne _ _ _ _ h]
  | cons kv rest ih =>
    obtain ⟨k₀, v₀⟩ := kv
    by_cases h₀ : k₀ = k
    · subst h₀
      rw [mapSet, if_pos rfl, lookup_cons_ne _ _ _ _ h, lookup_cons_ne _ _ _ _ h]
    · by_cases h' : k' = k₀
      · subst h'
        rw [mapSet, if_neg h₀, lookup_cons_self, lookup_cons_self]
      · rw [mapSet, if_neg h₀, lookup_cons_ne _ _ _ _ h', lookup_cons_ne _ _ _ _ h', ih]

theorem mem_keys_mapSet {β : Type} {m : List (String × β)} {k a : String} {v : β}
    (h : a ∈ (mapSet m k v).map Prod.fst) : a = k ∨ a ∈ m.map Prod.fst := by
  induction m with
  | nil => simpa [mapSet] using h
  | cons kv rest ih =>
    obtain ⟨k₀, v₀⟩ := kv
    by_cases h₀ : k₀ = k
    · subst h₀
      rcases (by simpa [mapSet] using h : a = k₀ ∨ a ∈ rest.map Prod.fst) with h' | h'
      · exact Or.inl h'
      · exact Or.inr (by simp [h'])
    · rcases (by simpa [mapSet, h₀] using h : a = k₀ ∨ a ∈ (mapSet rest k v).map Prod.fst)
        with h' | h'
      · exact Or.inr (by simp [h'])
      · rcases ih h' with h'' | h''
        · exact Or.inl h''
        · exact Or.inr (by simp [h''])

theorem nodup_keys_mapSet {β : Type} {m : List (String × β)} (k : String) (v : β)
    (h : (m.map Prod.fst).Nodup) : ((mapSet m k v).map Prod.fst).Nodup := by
  induction m with
  | nil => simp [mapSet]
  | cons kv rest ih =>
    obtain ⟨k₀, v₀⟩ := kv
    simp only [List.map_cons, List.nodup_cons] at h
    by_cases h₀ : k₀ = k
    · subst h₀
      have hms : mapSet ((k₀, v₀) :: rest) k₀ v = (k₀, v) :: rest := by simp [mapSet]
      rw [hms]
      simp only [List.map_cons, List.nodup_cons]
      exact h
    · simp only [mapSet, if_neg h₀, List.map_cons, List.nodup_cons]
      refine ⟨fun hmem => ?_, ih h.2⟩
      rcases mem_keys_mapSet hmem with h' | h'
      · exact h₀ h'
      · exact h.1 h'

theorem mapSet_of_not_mem_keys {β : Type} {m : List (String × β)} {k : String} (v : β)
    (h : k ∉ m.map Prod.fst) : mapSet m k v = m ++ [(k, v)] := by
  induction m with
  | nil => simp [mapSet]
  | cons kv rest ih =>
    obtain ⟨k₀, v₀⟩ := kv
    simp only [List.map_cons, List.mem_cons] at h
    push_neg at h
    simp [mapSet, Ne.symm h.1, ih h.2]

theorem mem_of_lookup_eq_some {β : Type} {m : List (String × β)} {k : String} {v : β}
    (h : m.lookup k = some v) : (k, v) ∈ m := by
  induction m with
  | nil => simp [List.lookup] at h
  | cons kv rest ih =>
    obtain ⟨k₀, v₀⟩ := kv
    by_cases h₀ : k = k₀
    · subst h₀
      rw [lookup_cons_self] at h
      injection h with h
      subst h
      exact List.mem_cons_self _ _
    · rw [lookup_cons_ne _ _ _ _ h₀] at h
      exact List.mem_cons_of_mem _ (ih h)

/-! Helper lemmas about `setAll` (iterated `http.Header.Set`).  Because
`Header.Set` assigns at the MIME-canonicalised key, the lemmas speak of
`canonicalMIMEHeaderKey`. -/

theorem lookup_setAll_no_canon (hdr : List (String × List String))
    (kvs : List (String × String)) (c : String)
    (hc : ∀ kv ∈ kvs, canonicalMIMEHeaderKey kv.1 ≠ c) :
    (setAll hdr kvs).lookup c = hdr.lookup c := by
  induction kvs generalizing hdr with
  | nil => simp [setAll]
  | cons kv rest ih =>
    rw [setAll, ih _ (fun kv' h' => hc kv' (List.mem_cons_of_mem _ h')), headerSet,
      lookup_mapSet_ne _ _ _ _ (Ne.symm (hc kv (List.mem_cons_self _ _)))]

theorem lookup_setAll_canonical (hdr : List (String × List String))
    (kvs : List (String × String)) (k : String) (v : String)
    (hnd : (kvs.map Prod.fst).Nodup)
    (hinj : ∀ kv ∈ kvs, canonicalMIMEHeaderKey kv.1 = canonicalMIMEHeaderKey k → kv.1 = k)
    (hmem : (k, v) ∈ kvs) :
    (setAll hdr kvs).lookup (canonicalMIMEHeaderKey k) = some [v] := by
  induction kvs generalizing hdr with
  | nil => cases hmem
  | cons kv₀ rest ih =>
    obtain ⟨k₀, v₀⟩ := kv₀
    simp only [List.map_cons, List.nodup_cons] at hnd
    rcases List.mem_cons.mp hmem with heq | hrest
    · injection heq with hk hv
      subst hk; subst hv
      have hc : ∀ kv ∈ rest, canonicalMIMEHeaderKey kv.1 ≠ canonicalMIMEHeaderKey k := by
        intro kv' h' hcanon
        have hk' : kv'.1 = k := hinj kv' (List.mem_cons_of_mem _ h') hcanon
        exact hnd.1 (hk' ▸ List.mem_map_of_mem Prod.fst h')
      rw [setAll, lookup_setAll_no_canon _ _ _ hc, headerSet, lookup_mapSet_self]
    · rw [setAll]
      exact ih (headerSet hdr k₀ v₀) hnd.2
        (fun kv' h' => hinj kv' (List.mem_cons_of_mem _ h')) hrest

/-! Helper lemmas about the modelled `strings` functions. -/

theorem string_ext {s t : String} (h : s.data = t.data) : s = t := by
  cases s; cases t; simp_all

theorem data_append (s t : String) : (s ++ t).data = s.data ++ t.data := rfl

theorem goHasPre_append (p s : String) : goHasPre (p ++ s) p = true := by
  rw [goHasPre, data_append, List.isPrefixOf_iff_prefix]
  exact ⟨s.data, rfl⟩

theorem goTrimPre_append (p s : String) : goTrimPre (p ++ s) p = s := by
  rw [goTrimPre, if_pos (goHasPre_append p s), data_append, List.drop_left]

theorem goTrimPre_spec {k p : String} (h : goHasPre k p = true) :
    p ++ goTrimPre k p = k := by
  obtain ⟨t, ht⟩ := List.isPrefixOf_iff_prefix.mp (by rwa [goHasPre] at h)
  have htrim : goTrimPre k p = String.mk t := by
    rw [goTrimPre, if_pos h]
    congr 1
    rw [← ht, List.drop_left]
  rw [htrim]
  exact string_ext (by rw [data_append, ht])

theorem goHasSuffix_append_slash (s : String) : goHasSuffix (s ++ "/") "/" = true := by
  rw [goHasSuffix, List.isSuffixOf_iff_suffix, data_append]
  exact ⟨s.data, rfl⟩

theorem endsWithExactlyOneSlash_append {s : String} (h : goHasSuffix s "/" = false) :
    endsWithExactlyOneSlash (s ++ "/") = true := by
  have hdata : (s ++ "/").data.reverse = '/' :: s.data.reverse := by
    rw [data_append]
    simp [show ("/" : String).data = ['/'] from rfl]
  have hlast : ∀ c rest, s.data.reverse = c :: rest → c ≠ '/' := by
    intro c rest hrev hc
    subst hc
    have : goHasSuffix s "/" = true := by
      rw [goHasSuffix, List.isSuffixOf_iff_suffix]
      refine ⟨rest.reverse, ?_⟩
      have := congrArg List.reverse hrev
      simpa [show ("/" : String).data = ['/'] from rfl] using this.symm
    rw [h] at this
    cases this
  rw [endsWithExactlyOneSlash, hdata]
  cases hrev : s.data.reverse with
  | nil => rfl
  | cons c rest =>
    have := hlast c rest hrev
    simp [this]

/-! Helper lemmas about `collectHeaders`. -/

theorem nodup_keys_collectHeaders (params : List (String × String)) :
    ((collectHeaders params).map Prod.fst).Nodup := by
  induction params with
  | nil => simp [collectHeaders]
  | cons kv rest ih =>
    obtain ⟨k, v⟩ := kv
    by_cases h : goHasPre k "header_" = true
    · rw [collectHeaders, if_pos h]
      exact nodup_keys_mapSet _ _ ih
    · rw [collectHeaders, if_neg h]
      exact ih

theorem lookup_collectHeaders {params : List (String × String)} {name value : String}
    (hnd : (params.map Prod.fst).Nodup)
    (hmem : ("header_" ++ name, value) ∈ params) :
    (collectHeaders params).lookup name = some value := by
  induction params with
  | nil => cases hmem
  | cons kv rest ih =>
    obtain ⟨k, v⟩ := kv
    simp only [List.map_cons, List.nodup_cons] at hnd
    rcases List.mem_cons.mp hmem with heq | hrest
    · injection heq with hk hv
      subst hv
      rw [collectHeaders, ← hk, if_pos (goHasPre_append _ _), goTrimPre_append,
        lookup_mapSet_self]
    · have hk : k ≠ "header_" ++ name := by
        intro hkk
        exact hnd.1 (hkk ▸ List.mem_map_of_mem Prod.fst hrest)
      by_cases hp : goHasPre k "header_" = true
      · have htr : name ≠ goTrimPre k "header_" := by
          intro he
          exact hk (by rw [← goTrimPre_spec hp, ← he])
        rw [collectHeaders, if_pos hp, lookup_mapSet_ne _ _ _ _ htr]
        exact ih hnd.2 hrest
      · rw [collectHeaders, if_neg hp]
        exact ih hnd.2 hrest

theorem mem_keys_collectHeaders {params : List (String × String)} {a : String}
    (h : a ∈ (collectHeaders params).map Prod.fst) :
    ∃ kv, kv ∈ params ∧ goHasPre kv.1 "header_" = true ∧
      a = goTrimPre kv.1 "header_" := by
  induction params with
  | nil => simp [collectHeaders] at h
  | cons kv₀ rest ih =>
    obtain ⟨k, v⟩ := kv₀
    by_cases hp : goHasPre k "header_" = true
    · have h' : a ∈ (mapSet (collectHeaders rest) (goTrimPre k "header_") v).map Prod.fst := by
        rw [collectHeaders, if_pos hp] at h
        exact h
      rcases mem_keys_mapSet h' with h'' | h''
      · exact ⟨(k, v), List.mem_cons_self _ _, hp, h''⟩
      · obtain ⟨kv', hmem', hp', ha'⟩ := ih h''
        exact ⟨kv', List.mem_cons_of_mem _ hmem', hp', ha'⟩
    · rw [collectHeaders, if_neg hp] at h
      obtain ⟨kv', hmem', hp', ha'⟩ := ih h
      exact ⟨kv', List.mem_cons_of_mem _ hmem', hp', ha'⟩

/-! Inversion of a successful construction. -/

theorem newHTTPDataStore_ok {pd : String → Except String Nat} {cfg : DataStoreConfig}
    {ds : HTTPDataStore} (hok : NewHTTPDataStore pd cfg = .ok ds) :
    ∃ url0, cfg.params.lookup "base_url" = some url0 ∧
      ds.baseURL = (if goHasSuffix url0 "/" then url0 else url0 ++ "/") ∧
      ds.headers = collectHeaders cfg.params := by
  unfold NewHTTPDataStore at hok
  cases hbu : cfg.params.lookup "base_url" with
  | none => rw [hbu] at hok; cases hok
  | some url0 =>
    rw [hbu] at hok
    dsimp only at hok
    refine ⟨url0, rfl, ?_⟩
    cases hup : urlParse url0 with
    | error e => rw [hup] at hok; cases hok
    | ok u =>
      rw [hup] at hok
      dsimp only at hok
      by_cases hsch : u.scheme ≠ "http" ∧ u.scheme ≠ "https"
      · rw [if_pos hsch] at hok; cases hok
      · rw [if_neg hsch] at hok
        cases hts : cfg.params.lookup "timeout" with
        | some ts =>
          rw [hts] at hok
          dsimp only at hok
          cases hpd : pd ts with
          | error e => rw [hpd] at hok; cases hok
          | ok t =>
            rw [hpd] at hok
            injection hok with hds
            rw [← hds]
            exact ⟨rfl, rfl⟩
        | none =>
          rw [hts] at hok
          injection hok with hds
          rw [← hds]
          exact ⟨rfl, rfl⟩

/-! Status-classification helpers. -/

theorem checkHTTPStatus_404 {resp : HTTPResponse} (filePath : String)
    (h4 : resp.statusCode = 404) :
    checkHTTPStatus resp filePath = some .errNotExist := by
  simp [checkHTTPStatus, h4]

theorem checkHTTPStatus_200 {resp : HTTPResponse} (filePath : String)
    (h2 : resp.statusCode = 200) : checkHTTPStatus resp filePath = none := by
  simp [checkHTTPStatus, h2]

theorem checkHTTPStatus_other {resp : HTTPResponse} (filePath : String)
    (h2 : resp.statusCode ≠ 200) (h4 : resp.statusCode ≠ 404) :
    checkHTTPStatus resp filePath =
      some (.errorsNew ("HTTP error " ++ toString resp.statusCode ++ " for file " ++ filePath)) := by
  simp [checkHTTPStatus, h2, h4]

theorem doHeadRequest_classify {client : Transport} {h : HTTPDataStore} {filePath : String}
    {resp : HTTPResponse} (hc : client (headRequest h filePath) = .ok resp) :
    doHeadRequest client h filePath =
      match checkHTTPStatus resp filePath with
      | some e => .error e
      | none => .ok resp := by
  rw [doHeadRequest, hc]

theorem getFile_classify {client : Transport} {h : HTTPDataStore} {filePath : String}
    {resp : HTTPResponse} (hc : client (getRequest h filePath) = .ok resp) :
    GetFile client h filePath =
      match checkHTTPStatus resp filePath with
      | some e => .error e
      | none => .ok resp.body := by
  rw [GetFile, hc]

theorem errorsIs_errorsNew_notExist (m : String) :
    errorsIs (.errorsNew m) .errNotExist = false := rfl

theorem errorsIs_wrapped_new_notExist (m msg : String) :
    errorsIs (.wrapped m (.errorsNew msg)) .errNotExist = false := rfl

/-!
The claim theorems.
-/

/-- C1: for every file path for which the backend responds with HTTP 404
(on the HEAD probe for the metadata-driven operations, on the GET for the
retrieval), `GetFile`, `GetFileMetadata`, `GetFileLastModified` and `Size`
all return exactly the canonical not-found classification `os.ErrNotExist`,
never an unclassified generic error. -/
theorem notFound_canonical_classification (client : Transport)
    (parseTime : String → Except String Nat) (h : HTTPDataStore) (filePath : String)
    (respH respG : HTTPResponse)
    (hH : client (headRequest h filePath) = .ok respH) (hH4 : respH.statusCode = 404)
    (hG : client (getRequest h filePath) = .ok respG) (hG4 : respG.statusCode = 404) :
    GetFile client h filePath = .error .errNotExist ∧
    GetFileMetadata client h filePath = .error .errNotExist ∧
    GetFileLastModified client parseTime h filePath = .error .errNotExist ∧
    Datastore.Size client h filePath = .error .errNotExist := by
  have hmeta : GetFileMetadata client h filePath = .error .errNotExist := by
    rw [GetFileMetadata, doHeadRequest_classify hH, checkHTTPStatus_404 filePath hH4]
  refine ⟨?_, hmeta, ?_, ?_⟩
  · rw [getFile_classify hG, checkHTTPStatus_404 filePath hG4]
  · rw [GetFileLastModified, hmeta]
  · rw [Datastore.Size, hmeta]

/-- Witness for the C1 theorem: a transport answering 404 to everything. -/
theorem notFound_canonical_classification_witness :
    GetFile (fun _ => .ok ⟨404, [], ""⟩) ⟨0, "http://h/", []⟩ "f" = .error .errNotExist ∧
    GetFileMetadata (fun _ => .ok ⟨404, [], ""⟩) ⟨0, "http://h/", []⟩ "f" =
      .error .errNotExist ∧
    GetFileLastModified (fun _ => .ok ⟨404, [], ""⟩) (fun _ => .ok 0) ⟨0, "http://h/", []⟩ "f" =
      .error .errNotExist ∧
    Datastore.Size (fun _ => .ok ⟨404, [], ""⟩) ⟨0, "http://h/", []⟩ "f" =
      .error .errNotExist :=
  notFound_canonical_classification (fun _ => .ok ⟨404, [], ""⟩) (fun _ => .ok 0)
    ⟨0, "http://h/", []⟩ "f" ⟨404, [], ""⟩ ⟨404, [], ""⟩ rfl rfl rfl rfl

/-- C2: `Exists` maps a 404 probe to `(false, nil)`, a successful (200)
probe to `(true, nil)`, and propagates every failure other than not-found
(transport errors and unexpected statuses) as an error that is not
classified not-found. -/
theorem exists_absence_classification (client : Transport) (h : HTTPDataStore)
    (filePath : String) :
    (∀ resp, client (headRequest h filePath) = .ok resp → resp.statusCode = 404 →
      Datastore.Exists client h filePath = .ok false) ∧
    (∀ resp, client (headRequest h filePath) = .ok resp → resp.statusCode = 200 →
      Datastore.Exists client h filePath = .ok true) ∧
    (∀ msg, client (headRequest h filePath) = .error msg →
      ∃ e, Datastore.Exists client h filePath = .error e ∧
        errorsIs e .errNotExist = false) ∧
    (∀ resp, client (headRequest h filePath) = .ok resp → resp.statusCode ≠ 200 →
      resp.statusCode ≠ 404 →
      ∃ e, Datastore.Exists client h filePath = .error e ∧
        errorsIs e .errNotExist = false) := by
  refine ⟨?_, ?_, ?_, ?_⟩
  · intro resp hc h4
    rw [Datastore.Exists, doHeadRequest_classify hc, checkHTTPStatus_404 filePath h4]
    rfl
  · intro resp hc h2
    rw [Datastore.Exists, doHeadRequest_classify hc, checkHTTPStatus_200 filePath h2]
  · intro msg hc
    refine ⟨.wrapped ("HEAD request failed for " ++ filePath ++ ": " ++ msg) (.errorsNew msg),
      ?_, errorsIs_wrapped_new_notExist _ _⟩
    rw [Datastore.Exists, doHeadRequest, hc]
    rfl
  · intro resp hc h2 h4
    refine ⟨.errorsNew ("HTTP error " ++ toString resp.statusCode ++ " for file " ++ filePath),
      ?_, errorsIs_errorsNew_notExist _⟩
    rw [Datastore.Exists, doHeadRequest_classify hc, checkHTTPStatus_other filePath h2 h4]
    rfl

/-- Witness for the C2 theorem: the four scenarios at concrete transports. -/
theorem exists_absence_classification_witness :
    Datastore.Exists (fun _ => .ok ⟨404, [], ""⟩) ⟨0, "http://h/", []⟩ "f" = .ok false ∧
    Datastore.Exists (fun _ => .ok ⟨200, [], ""⟩) ⟨0, "http://h/", []⟩ "f" = .ok true ∧
    (∃ e, Datastore.Exists (fun _ => .error "connection refused") ⟨0, "http://h/", []⟩ "f" =
      .error e ∧ errorsIs e .errNotExist = false) ∧
    (∃ e, Datastore.Exists (fun _ => .ok ⟨500, [], ""⟩) ⟨0, "http://h/", []⟩ "f" =
      .error e ∧ errorsIs e .errNotExist = false) :=
  ⟨(exists_absence_classification _ _ _).1 _ rfl rfl,
   (exists_absence_classification _ _ _).2.1 _ rfl rfl,
   (exists_absence_classification _ _ _).2.2.1 "connection refused" rfl,
   (exists_absence_classification _ _ _).2.2.2 _ rfl (by decide) (by decide)⟩

/-- C3: for every path, payload, metadata, prefix and limit — and every
transport, so no request can be involved in the result — `PutFile`,
`PutFileIfNotExists` and `ListFilePaths` fail with their
unsupported-operation error, and `PutFileIfNotExists` reports `false`
(nothing written). -/
theorem readonly_operations_unsupported (client : Transport) (h : HTTPDataStore)
    (path payload : String) (metaData : List (String × String)) (pre : String)
    (limit : Int) :
    PutFile client h path payload metaData =
      some (.errorsNew "HTTP datastore is read-only, PutFile not supported") ∧
    PutFileIfNotExists client h path payload metaData =
      (false, some (.errorsNew "HTTP datastore is read-only, PutFileIfNotExists not supported")) ∧
    ListFilePaths client h pre limit =
      .error (.errorsNew "HTTP datastore does not support listing files") :=
  ⟨rfl, rfl, rfl⟩

/-- C8: for every relative file path, the URL of the HEAD probe and of the
GET retrieval is the stored base address string-concatenated with the path
(`buildURL`); nothing is normalised or rewritten. -/
theorem request_url_is_concatenation (h : HTTPDataStore) (filePath : String) :
    buildURL h filePath = h.baseURL ++ filePath ∧
    (headRequest h filePath).url = h.baseURL ++ filePath ∧
    (getRequest h filePath).url = h.baseURL ++ filePath :=
  ⟨rfl, rfl, rfl⟩

/-- C9: for every response whose status is neither 200 nor 404, each read
operation fails with the wrapped backend error whose message carries the
requested file path and the numeric status code
(`"HTTP error <status> for file <path>"`). -/
theorem backend_error_carries_path_and_status (client : Transport)
    (parseTime : String → Except String Nat) (h : HTTPDataStore) (filePath : String)
    (respH respG : HTTPResponse)
    (hH : client (headRequest h filePath) = .ok respH)
    (hH2 : respH.statusCode ≠ 200) (hH4 : respH.statusCode ≠ 404)
    (hG : client (getRequest h filePath) = .ok respG)
    (hG2 : respG.statusCode ≠ 200) (hG4 : respG.statusCode ≠ 404) :
    GetFileMetadata client h filePath = .error (.errorsNew
      ("HTTP error " ++ toString respH.statusCode ++ " for file " ++ filePath)) ∧
    GetFileLastModified client parseTime h filePath = .error (.errorsNew
      ("HTTP error " ++ toString respH.statusCode ++ " for file " ++ filePath)) ∧
    Datastore.Size client h filePath = .error (.errorsNew
      ("HTTP error " ++ toString respH.statusCode ++ " for file " ++ filePath)) ∧
    GetFile client h filePath = .error (.errorsNew
      ("HTTP error " ++ toString respG.statusCode ++ " for file " ++ filePath)) := by
  have hmeta : GetFileMetadata client h filePath = .error (.errorsNew
      ("HTTP error " ++ toString respH.statusCode ++ " for file " ++ filePath)) := by
    rw [GetFileMetadata, doHeadRequest_classify hH, checkHTTPStatus_other filePath hH2 hH4]
  refine ⟨hmeta, ?_, ?_, ?_⟩
  · rw [GetFileLastModified, hmeta]
  · rw [Datastore.Size, hmeta]
  · rw [getFile_classify hG, checkHTTPStatus_other filePath hG2 hG4]

/-- Witness for the C9 theorem at a transport answering 503. -/
theorem backend_error_carries_path_and_status_witness :
    GetFileMetadata (fun _ => .ok ⟨503, [], ""⟩) ⟨0, "http://h/", []⟩ "f" =
      .error (.errorsNew "HTTP error 503 for file f") ∧
    GetFileLastModified (fun _ => .ok ⟨503, [], ""⟩) (fun _ => .ok 0) ⟨0, "http://h/", []⟩ "f" =
      .error (.errorsNew "HTTP error 503 for file f") ∧
    Datastore.Size (fun _ => .ok ⟨503, [], ""⟩) ⟨0, "http://h/", []⟩ "f" =
      .error (.errorsNew "HTTP error 503 for file f") ∧
    GetFile (fun _ => .ok ⟨503, [], ""⟩) ⟨0, "http://h/", []⟩ "f" =
      .error (.errorsNew "HTTP error 503 for file f") :=
  backend_error_carries_path_and_status (fun _ => .ok ⟨503, [], ""⟩) (fun _ => .ok 0)
    ⟨0, "http://h/", []⟩ "f" ⟨503, [], ""⟩ ⟨503, [], ""⟩ rfl (by decide) (by decide)
    rfl (by decide) (by decide)

/-- C4 counterexample: the base_url `"http://h//"` (two trailing separators)
is accepted and stored verbatim, so the constructed instance's effective base
address does not end with exactly one separator — refuting the claim that
duplicate trailing separators cannot accumulate. -/
theorem trailing_slash_counterexample :
    NewHTTPDataStore (fun _ => .error "") ⟨"HTTP", [("base_url", "http://h//")]⟩ =
      .ok ⟨defaultTimeout, "http://h//", []⟩ ∧
    endsWithExactlyOneSlash "http://h//" = false :=
  ⟨by decide, by decide⟩

/-- C4 (amended): for every accepted construction the effective base address
ends with a separator; exactly one is appended when the supplied base_url
lacked a trailing separator (yielding exactly one), while a base_url already
ending with a separator is stored unchanged, so pre-existing duplicates are
preserved rather than collapsed. -/
theorem trailing_slash_amended (pd : String → Except String Nat)
    (cfg : DataStoreConfig) (ds : HTTPDataStore) (url0 : String)
    (hurl : cfg.params.lookup "base_url" = some url0)
    (hok : NewHTTPDataStore pd cfg = .ok ds) :
    goHasSuffix ds.baseURL "/" = true ∧
    (goHasSuffix url0 "/" = false →
      ds.baseURL = url0 ++ "/" ∧ endsWithExactlyOneSlash ds.baseURL = true) ∧
    (goHasSuffix url0 "/" = true → ds.baseURL = url0) := by
  obtain ⟨url1, hurl1, hbase, _⟩ := newHTTPDataStore_ok hok
  rw [hurl] at hurl1
  injection hurl1 with h1
  subst h1
  by_cases hs : goHasSuffix url0 "/" = true
  · rw [hbase, if_pos hs]
    exact ⟨hs, fun hf => absurd hs (by rw [hf]; exact Bool.false_ne_true), fun _ => rfl⟩
  · have hs' : goHasSuffix url0 "/" = false := Bool.eq_false_iff.mpr hs
    rw [hbase, if_neg hs]
    exact ⟨goHasSuffix_append_slash url0,
      fun _ => ⟨rfl, endsWithExactlyOneSlash_append hs'⟩,
      fun ht => absurd ht hs⟩

/-- Witness for the C4 amended theorem at base_url `"http://h"`. -/
theorem trailing_slash_amended_witness :
    goHasSuffix "http://h/" "/" = true ∧
    (goHasSuffix "http://h" "/" = false →
      "http://h/" = "http://h" ++ "/" ∧ endsWithExactlyOneSlash "http://h/" = true) ∧
    (goHasSuffix "http://h" "/" = true → "http://h/" = "http://h") :=
  trailing_slash_amended (fun _ => .error "") ⟨"HTTP", [("base_url", "http://h")]⟩
    ⟨defaultTimeout, "http://h/", []⟩ "http://h" (by decide) (by decide)

/-! Well-formed URLs parse with an http(s) scheme. -/

theorem safeURLChar_bounds {c : Char} (h : SafeURLChar c) :
    32 ≤ c.toNat ∧ c.toNat ≤ 122 := by
  rcases h with ⟨h1, h2⟩ | ⟨h1, h2⟩ | h | h | h
  · omega
  · omega
  · subst h; decide
  · subst h; decide
  · subst h; decide

theorem urlParse_wellFormed {s : String} (h : WellFormedHTTPBase s) :
    ∃ u, urlParse s = .ok u ∧ (u.scheme = "http" ∨ u.scheme = "https") := by
  have main : ∀ (pre : String) (n : Nat) (sch : List Char),
      s.data.take n = pre.data → (∀ c ∈ s.data.drop n, SafeURLChar c) →
      pre.data.any (fun c => decide (c.toNat < 32) || c.toNat == 127) = false →
      getSchemeCore [] (pre.data ++ s.data.drop n) =
        .ok (some (sch, ('/' :: '/' :: s.data.drop n))) →
      urlParse s = .ok ⟨goToLower (String.mk sch), String.mk ('/' :: '/' :: s.data.drop n)⟩ := by
    intro pre n sch htake hsafe hprector hcore
    have hdecomp : s.data = pre.data ++ s.data.drop n := by
      conv_lhs => rw [← List.take_append_drop n s.data]
      rw [htake]
    have hctl : containsCTLByte s = false := by
      rw [containsCTLByte, hdecomp, List.any_append, hprector, Bool.false_or,
        List.any_eq_false]
      intro c hc
      have hb := safeURLChar_bounds (hsafe c hc)
      have h127 : (c.toNat == 127) = false := by
        simpa using (by omega : c.toNat ≠ 127)
      have h32 : decide (c.toNat < 32) = false := by
        simpa using (by omega : ¬c.toNat < 32)
      simp [h32, h127]
    have hcore2 : getSchemeCore [] s.data =
        .ok (some (sch, ('/' :: '/' :: s.data.drop n))) := by
      conv_lhs => rw [hdecomp]
      exact hcore
    rw [urlParse, if_neg (by rw [hctl]; exact Bool.false_ne_true), getScheme, hcore2]
  rcases h with ⟨htake, hsafe⟩ | ⟨htake, hsafe⟩
  · refine ⟨⟨"http", String.mk ('/' :: '/' :: s.data.drop 7)⟩, ?_, Or.inl rfl⟩
    have := main "http://" 7 ['h', 't', 't', 'p'] htake hsafe (by decide) ?_
    · simpa using this
    · rfl
  · refine ⟨⟨"https", String.mk ('/' :: '/' :: s.data.drop 8)⟩, ?_, Or.inr rfl⟩
    have := main "https://" 8 ['h', 't', 't', 'p', 's'] htake hsafe (by decide) ?_
    · simpa using this
    · rfl

/-- C5 counterexample: the base_url `"http:foo"` starts with neither the
literal `"http://"` nor `"https://"`, yet construction succeeds — the code
accepts any value whose parsed scheme is http/https. -/
theorem construction_scheme_counterexample :
    (NewHTTPDataStore (fun _ => .error "") ⟨"HTTP", [("base_url", "http:foo")]⟩).isOk = true ∧
    goHasPre "http:foo" "http://" = false ∧
    goHasPre "http:foo" "https://" = false :=
  ⟨by decide, by decide, by decide⟩

/-- C5 (amended): construction fails with a configuration error whenever the
base_url parameter is missing, fails to parse, or parses with a scheme
(compared lower-cased) that is neither http nor https — a literal "http://"
or "https://" lead is not what is checked; construction succeeds for a
well-formed http or https base URL provided the optional timeout, when
present, parses as a valid duration. -/
theorem construction_validation_amended (pd : String → Except String Nat)
    (cfg : DataStoreConfig) :
    (cfg.params.lookup "base_url" = none → (NewHTTPDataStore pd cfg).isOk = false) ∧
    (∀ url0, cfg.params.lookup "base_url" = some url0 →
      (∀ e, urlParse url0 = .error e → (NewHTTPDataStore pd cfg).isOk = false) ∧
      (∀ u, urlParse url0 = .ok u → u.scheme ≠ "http" → u.scheme ≠ "https" →
        (NewHTTPDataStore pd cfg).isOk = false) ∧
      (WellFormedHTTPBase url0 →
        (∀ ts, cfg.params.lookup "timeout" = some ts → (pd ts).isOk = true) →
        (NewHTTPDataStore pd cfg).isOk = true)) := by
  constructor
  · intro hbu
    rw [NewHTTPDataStore, hbu]
    rfl
  · intro url0 hbu
    refine ⟨?_, ?_, ?_⟩
    · intro e hup
      rw [NewHTTPDataStore, hbu]
      dsimp only
      rw [hup]
      rfl
    · intro u hup h1 h2
      rw [NewHTTPDataStore, hbu]
      dsimp only
      rw [hup]
      dsimp only
      rw [if_pos ⟨h1, h2⟩]
      rfl
    · intro hwf hts
      obtain ⟨u, hup, hsch⟩ := urlParse_wellFormed hwf
      rw [NewHTTPDataStore, hbu]
      dsimp only
      rw [hup]
      dsimp only
      rw [if_neg (by
        rintro ⟨hne1, hne2⟩
        rcases hsch with hh | hh
        · exact hne1 hh
        · exact hne2 hh)]
      cases hto : cfg.params.lookup "timeout" with
      | none => rfl
      | some ts =>
        have hok := hts ts hto
        dsimp only
        cases hpd : pd ts with
        | error e => rw [hpd] at hok; exact Bool.noConfusion hok
        | ok t => rfl

/-- Witness for the C5 amended theorem: missing base_url, an ftp scheme and
a well-formed http base at concrete configurations. -/
theorem construction_validation_amended_witness :
    (NewHTTPDataStore (fun _ => .ok 0) ⟨"HTTP", []⟩).isOk = false ∧
    (NewHTTPDataStore (fun _ => .ok 0) ⟨"HTTP", [("base_url", "ftp://h")]⟩).isOk = false ∧
    (NewHTTPDataStore (fun _ => .ok 0) ⟨"HTTP", [("base_url", "http://h")]⟩).isOk = true :=
  ⟨(construction_validation_amended _ _).1 rfl,
   ((construction_validation_amended (fun _ => .ok 0)
      ⟨"HTTP", [("base_url", "ftp://h")]⟩).2 "ftp://h" rfl).2.1
      ⟨"ftp", "//h"⟩ (by decide) (by decide) (by decide),
   ((construction_validation_amended (fun _ => .ok 0)
      ⟨"HTTP", [("base_url", "http://h")]⟩).2 "http://h" rfl).2.2
      (by decide) (fun ts hts => Option.noConfusion hts)⟩

/-- C6 counterexample: `Header.Set` canonicalises header names, so the two
configured parameters `header_Foo = "1"` and `header_foo = "2"` (distinct
map keys) address the same header `Foo`; the outgoing HEAD request ends up
carrying the single header `Foo: 1` — no header named `foo` and no header
carrying the configured value `"2"` at all — refuting the claim that every
configured `header_` entry is carried with its value. -/
theorem configured_headers_counterexample :
    NewHTTPDataStore (fun _ => .ok 0)
      ⟨"HTTP", [("base_url", "http://h"), ("header_Foo", "1"), ("header_foo", "2")]⟩ =
      .ok ⟨defaultTimeout, "http://h/", [("foo", "2"), ("Foo", "1")]⟩ ∧
    (headRequest ⟨defaultTimeout, "http://h/", [("foo", "2"), ("Foo", "1")]⟩ "f").header =
      [("Foo", ["1"])] ∧
    (headRequest ⟨defaultTimeout, "http://h/", [("foo", "2"), ("Foo", "1")]⟩
      "f").header.lookup "foo" = none :=
  ⟨by decide, by decide, by decide⟩

/-- C6 (amended): every configured parameter whose key has the `header_`
lead contributes, to both the HEAD probe and the GET retrieval request, a
header named by the MIME-canonicalised form of the key with that lead
stripped, holding the configured value — provided no other configured
`header_` parameter's name canonicalises to the same header name (colliding
names address one header, of which a single configured value survives).
The Nodup hypothesis is the distinct-key invariant of the Go `Params`
map. -/
theorem configured_headers_attached (pd : String → Except String Nat)
    (cfg : DataStoreConfig) (ds : HTTPDataStore) (name value filePath : String)
    (hnd : (cfg.params.map Prod.fst).Nodup)
    (hinj : ∀ kv ∈ cfg.params, goHasPre kv.1 "header_" = true →
      canonicalMIMEHeaderKey (goTrimPre kv.1 "header_") = canonicalMIMEHeaderKey name →
      goTrimPre kv.1 "header_" = name)
    (hmem : ("header_" ++ name, value) ∈ cfg.params)
    (hok : NewHTTPDataStore pd cfg = .ok ds) :
    (headRequest ds filePath).header.lookup (canonicalMIMEHeaderKey name) = some [value] ∧
    (getRequest ds filePath).header.lookup (canonicalMIMEHeaderKey name) = some [value] := by
  obtain ⟨url0, _, _, hhdrs⟩ := newHTTPDataStore_ok hok
  have hl : ds.headers.lookup name = some value := by
    rw [hhdrs]
    exact lookup_collectHeaders hnd hmem
  have hmem2 : (name, value) ∈ ds.headers := mem_of_lookup_eq_some hl
  have hnd2 : (ds.headers.map Prod.fst).Nodup := by
    rw [hhdrs]
    exact nodup_keys_collectHeaders _
  have hinj2 : ∀ kv ∈ ds.headers,
      canonicalMIMEHeaderKey kv.1 = canonicalMIMEHeaderKey name → kv.1 = name := by
    intro kv hkv hcanon
    have hk : kv.1 ∈ ds.headers.map Prod.fst := List.mem_map_of_mem Prod.fst hkv
    rw [hhdrs] at hk
    obtain ⟨kv', hmem', hp', ha'⟩ := mem_keys_collectHeaders hk
    rw [ha'] at hcanon ⊢
    exact hinj kv' hmem' hp' hcanon
  constructor
  · show (setAll [] ds.headers).lookup (canonicalMIMEHeaderKey name) = some [value]
    exact lookup_setAll_canonical _ _ _ _ hnd2 hinj2 hmem2
  · show (setAll [] ds.headers).lookup (canonicalMIMEHeaderKey name) = some [value]
    exact lookup_setAll_canonical _ _ _ _ hnd2 hinj2 hmem2

/-- Witness for the C6 amended theorem: a configured Authorization header
(collision-free, already canonical) reaches both requests. -/
theorem configured_headers_attached_witness :
    (headRequest ⟨defaultTimeout, "http://h/", [("Authorization", "Bearer x")]⟩
      "f").header.lookup (canonicalMIMEHeaderKey "Authorization") = some ["Bearer x"] ∧
    (getRequest ⟨defaultTimeout, "http://h/", [("Authorization", "Bearer x")]⟩
      "f").header.lookup (canonicalMIMEHeaderKey "Authorization") = some ["Bearer x"] :=
  configured_headers_attached (fun _ => .ok 0)
    ⟨"HTTP", [("base_url", "http://h"), ("header_Authorization", "Bearer x")]⟩
    ⟨defaultTimeout, "http://h/", [("Authorization", "Bearer x")]⟩
    "Authorization" "Bearer x" "f" (by decide) (by decide) (by decide) (by decide)

/-! The metadata map is the lower-cased first-value image of the response
header. -/

theorem mem_keys_lowerFirstValues {hdr : List (String × List String)} {a : String}
    (h : a ∈ (lowerFirstValues hdr).map Prod.fst) :
    a ∈ hdr.map (fun kv => goToLower kv.1) := by
  induction hdr with
  | nil => simp [lowerFirstValues] at h
  | cons kv rest ih =>
    obtain ⟨k, vs⟩ := kv
    cases vs with
    | nil =>
      have h' : a ∈ (lowerFirstValues rest).map Prod.fst := h
      exact List.mem_cons_of_mem _ (ih h')
    | cons v tl =>
      have h' : a ∈ (mapSet (lowerFirstValues rest) (goToLower k) v).map Prod.fst := h
      rcases mem_keys_mapSet h' with h'' | h''
      · simp [h'']
      · exact List.mem_cons_of_mem _ (ih h'')

theorem lowerFirstValues_perm (hdr : List (String × List String))
    (hvals : ∀ kv ∈ hdr, kv.2 ≠ ([] : List String))
    (hkeys : (hdr.map (fun kv => goToLower kv.1)).Nodup) :
    (lowerFirstValues hdr).Perm
      (hdr.map (fun kv => (goToLower kv.1, kv.2.headD ""))) := by
  induction hdr with
  | nil => simp [lowerFirstValues]
  | cons kv rest ih =>
    obtain ⟨k, vs⟩ := kv
    simp only [List.map_cons, List.nodup_cons] at hkeys
    cases vs with
    | nil => exact absurd rfl (hvals (k, []) (List.mem_cons_self _ _))
    | cons v tl =>
      have hfresh : goToLower k ∉ (lowerFirstValues rest).map Prod.fst := by
        intro hmem
        exact hkeys.1 (mem_keys_lowerFirstValues hmem)
      have hrest := ih (fun kv hkv => hvals kv (List.mem_cons_of_mem _ hkv)) hkeys.2
      show (mapSet (lowerFirstValues rest) (goToLower k) v).Perm _
      rw [mapSet_of_not_mem_keys _ hfresh]
      have h1 : (lowerFirstValues rest ++ [(goToLower k, v)]).Perm
          ((goToLower k, v) :: rest.map (fun kv => (goToLower kv.1, kv.2.headD ""))) :=
        (List.perm_append_singleton _ _).trans (hrest.cons _)
      simpa [List.map_cons] using h1

/-- C7: for every successful (200) metadata probe whose response headers
have pairwise distinct lower-cased names and at least one value each —
the invariants of a real Go response header map — the metadata consists of
exactly one entry per response header, keyed by the lower-cased header name
and holding the header's first value. -/
theorem metadata_lowercased_first_values (client : Transport) (h : HTTPDataStore)
    (filePath : String) (resp : HTTPResponse)
    (hresp : client (headRequest h filePath) = .ok resp)
    (h200 : resp.statusCode = 200)
    (hvals : ∀ kv ∈ resp.header, kv.2 ≠ ([] : List String))
    (hkeys : (resp.header.map (fun kv => goToLower kv.1)).Nodup) :
    ∃ m, GetFileMetadata client h filePath = .ok m ∧
      m.Perm (resp.header.map (fun kv => (goToLower kv.1, kv.2.headD ""))) := by
  refine ⟨lowerFirstValues resp.header, ?_, lowerFirstValues_perm _ hvals hkeys⟩
  rw [GetFileMetadata, doHeadRequest_classify hresp, checkHTTPStatus_200 filePath h200]

/-- Witness for the C7 theorem: two headers, one with a repeated value. -/
theorem metadata_lowercased_first_values_witness :
    ∃ m, GetFileMetadata
        (fun _ => .ok ⟨200, [("Content-Length", ["2", "9"]), ("X-Test", ["y"])], ""⟩)
        ⟨0, "http://h/", []⟩ "f" = .ok m ∧
      m.Perm [("content-length", "2"), ("x-test", "y")] :=
  metadata_lowercased_first_values
    (fun _ => .ok ⟨200, [("Content-Length", ["2", "9"]), ("X-Test", ["y"])], ""⟩)
    ⟨0, "http://h/", []⟩ "f" ⟨200, [("Content-Length", ["2", "9"]), ("X-Test", ["y"])], ""⟩
    rfl rfl (by decide) (by decide)

/-- C10: `Size` succeeds exactly when `GetFileMetadata` succeeds and its
result has a content-length entry parsing as a base-10 64-bit integer, and
then returns that integer; and `Size` depends on the transport only through
HEAD requests, so it never transfers the file body. -/
theorem size_from_head_metadata (client : Transport) (h : HTTPDataStore)
    (filePath : String) :
    (∀ n : Int, Datastore.Size client h filePath = .ok n ↔
      (∃ m, GetFileMetadata client h filePath = .ok m ∧
        ∃ s, m.lookup "content-length" = some s ∧ parseInt64 s = some n)) ∧
    (∀ client₂ : Transport,
      (∀ req, req.method = "HEAD" → client req = client₂ req) →
      Datastore.Size client h filePath = Datastore.Size client₂ h filePath) := by
  constructor
  · intro n
    constructor
    · intro hs
      rw [Datastore.Size] at hs
      cases hm : GetFileMetadata client h filePath with
      | error e => rw [hm] at hs; cases hs
      | ok m =>
        rw [hm] at hs
        dsimp only at hs
        cases hcl : m.lookup "content-length" with
        | none => rw [hcl] at hs; cases hs
        | some s =>
          rw [hcl] at hs
          dsimp only at hs
          cases hpi : parseInt64 s with
          | none => rw [hpi] at hs; cases hs
          | some sz =>
            rw [hpi] at hs
            injection hs with hsz
            exact ⟨m, rfl, s, hcl, by rw [hpi, hsz]⟩
    · rintro ⟨m, hm, s, hcl, hpi⟩
      rw [Datastore.Size, hm]
      dsimp only
      rw [hcl]
      dsimp only
      rw [hpi]
  · intro client₂ hagree
    have hreq : client (headRequest h filePath) = client₂ (headRequest h filePath) :=
      hagree _ rfl
    rw [Datastore.Size, Datastore.Size, GetFileMetadata, GetFileMetadata,
      doHeadRequest, doHeadRequest, hreq]

/-- Witness for the C10 theorem: a HEAD response advertising 13 bytes. -/
theorem size_from_head_metadata_witness :
    Datastore.Size (fun _ => .ok ⟨200, [("Content-Length", ["13"])], ""⟩)
      ⟨0, "http://h/", []⟩ "f" = .ok 13 :=
  ((size_from_head_metadata (fun _ => .ok ⟨200, [("Content-Length", ["13"])], ""⟩)
      ⟨0, "http://h/", []⟩ "f").1 13).mpr
    ⟨[("content-length", "13")], by decide, "13", by decide, by decide⟩

end Datastore
